import Mathlib

namespace Mdtick

/-! # Shallow embedding of mdtick (menisadi/mdtick)

File contents are modelled as `List Char`.  The checklist parser in
`md_dashboard/dashboard.py` (and its duplicate in `mdtick.py`) runs
`re.findall` with the pattern "- \[( |x)\] " over the whole file content;
`re.findall` scans left to right, trying each start position in turn and,
after a match, resuming immediately after the matched text. -/

/-- Lookahead for the pattern "- \[( |x)\] " at the current position: the six
characters '-', ' ', '[', t, ']', ' ' with t ∈ {' ', 'x'} must start here;
the captured group is the checkbox character t. -/
def markerBox? : List Char → Option Char
  | a :: b :: c :: d :: e :: f :: _ =>
      if a = '-' ∧ b = ' ' ∧ c = '[' ∧ (d = ' ' ∨ d = 'x') ∧ e = ']' ∧ f = ' '
      then some d else none
  | _ => none

/-- One left-to-right pass of `re.findall` with the pattern "- \[( |x)\] ":
at each position, if the marker starts here, its checkbox character is
recorded and scanning resumes after the six matched characters (the skip
counter consumes the remaining five); otherwise scanning advances by one
character. -/
def scanTasks : Nat → List Char → List Char
  | _, [] => []
  | n + 1, _ :: rest => scanTasks n rest
  | 0, c :: rest =>
    match markerBox? (c :: rest) with
    | some t => t :: scanTasks 5 rest
    | none => scanTasks 0 rest

/-- The full findall scan over the content. -/
def findall_tasks (l : List Char) : List Char := scanTasks 0 l

/-- Whether one of the exact six-character markers "- [c] " (with checkbox
character c satisfying p) begins at the head of the list. -/
def markerHere (p : Char → Bool) : List Char → Bool
  | a :: b :: c :: d :: e :: f :: _ =>
      a == '-' && b == ' ' && c == '[' && p d && e == ']' && f == ' '
  | _ => false

/-- Number of positions of the content at which a six-character marker
"- [c] " (checkbox character satisfying p) begins. -/
def markerCount (p : Char → Bool) : List Char → Nat
  | [] => 0
  | c :: rest => (if markerHere p (c :: rest) = true then 1 else 0) + markerCount p rest

/-- Checkbox characters of the exact markers "- [ ] " and "- [x] "
(uppercase X is not one of them). -/
def validBox (c : Char) : Bool := c == ' ' || c == 'x'

/-- The checkbox character of a completed task. -/
def xBox (c : Char) : Bool := c == 'x'

/-- Number of occurrences in the content of the exact markers
"- [ ] " or "- [x] ". -/
def countMarkers (l : List Char) : Nat := markerCount validBox l

/-- Number of occurrences in the content of the exact marker "- [x] ". -/
def countMarkersX (l : List Char) : Nat := markerCount xBox l

theorem markerHere_iff (p : Char → Bool) (l : List Char) :
    markerHere p l = true ↔
      ∃ t rest, p t = true ∧ l = '-' :: ' ' :: '[' :: t :: ']' :: ' ' :: rest := by
  constructor
  · intro h
    match l with
    | [] => simp [markerHere] at h
    | [a] => simp [markerHere] at h
    | [a, b] => simp [markerHere] at h
    | [a, b, c] => simp [markerHere] at h
    | [a, b, c, d] => simp [markerHere] at h
    | [a, b, c, d, e] => simp [markerHere] at h
    | a :: b :: c :: d :: e :: f :: rest =>
      simp [markerHere] at h
      obtain ⟨⟨⟨⟨⟨ha, hb⟩, hc⟩, hd⟩, he⟩, hf⟩ := h
      subst ha; subst hb; subst hc; subst he; subst hf
      exact ⟨d, rest, hd, rfl⟩
  · rintro ⟨t, rest, ht, rfl⟩
    simp [markerHere, ht]

theorem markerHere_false_head (p : Char → Bool) (c : Char) (l : List Char)
    (hc : c ≠ '-') : markerHere p (c :: l) = false := by
  cases h : markerHere p (c :: l)
  · rfl
  · obtain ⟨t, rest, _, heq⟩ := (markerHere_iff p _).mp h
    simp at heq
    exact absurd heq.1 hc

theorem markerHere_false_second (p : Char → Bool) (a b : Char) (l : List Char)
    (hb : b ≠ ' ') : markerHere p (a :: b :: l) = false := by
  cases h : markerHere p (a :: b :: l)
  · rfl
  · obtain ⟨t, rest, _, heq⟩ := (markerHere_iff p _).mp h
    simp at heq
    exact absurd heq.2.1 hb

theorem markerHere_pattern (p : Char → Bool) (t : Char) (rest : List Char) :
    markerHere p ('-' :: ' ' :: '[' :: t :: ']' :: ' ' :: rest) = p t := by
  simp [markerHere]

/-- Inside a matched marker "- [t] ", no new marker can begin at offsets
1..5: the markers never overlap. -/
theorem markerCount_pattern (p : Char → Bool) (t : Char) (rest : List Char) :
    markerCount p ('-' :: ' ' :: '[' :: t :: ']' :: ' ' :: rest) =
      markerCount p rest + (if p t = true then 1 else 0) := by
  have h2 : markerHere p (' ' :: '[' :: t :: ']' :: ' ' :: rest) = false :=
    markerHere_false_head p _ _ (by decide)
  have h3 : markerHere p ('[' :: t :: ']' :: ' ' :: rest) = false :=
    markerHere_false_head p _ _ (by decide)
  have h4 : markerHere p (t :: ']' :: ' ' :: rest) = false :=
    markerHere_false_second p _ _ _ (by decide)
  have h5 : markerHere p (']' :: ' ' :: rest) = false :=
    markerHere_false_head p _ _ (by decide)
  have h6 : markerHere p (' ' :: rest) = false :=
    markerHere_false_head p _ _ (by decide)
  simp [markerCount, markerHere_pattern, h2, h3, h4, h5, h6]
  omega

theorem markerCount_cons_of_not (p : Char → Bool) (c : Char) (rest : List Char)
    (h : markerHere p (c :: rest) = false) :
    markerCount p (c :: rest) = markerCount p rest := by
  simp [markerCount, h]

theorem markerBox?_some_iff (l : List Char) (t : Char) :
    markerBox? l = some t ↔
      ∃ rest, (t = ' ' ∨ t = 'x') ∧ l = '-' :: ' ' :: '[' :: t :: ']' :: ' ' :: rest := by
  constructor
  · intro h
    match l with
    | [] => simp [markerBox?] at h
    | [a] => simp [markerBox?] at h
    | [a, b] => simp [markerBox?] at h
    | [a, b, c] => simp [markerBox?] at h
    | [a, b, c, d] => simp [markerBox?] at h
    | [a, b, c, d, e] => simp [markerBox?] at h
    | a :: b :: c :: d :: e :: f :: rest =>
      rw [markerBox?] at h
      split at h
      · rename_i hcond
        obtain ⟨ha, hb, hc, hd, he, hf⟩ := hcond
        subst ha; subst hb; subst hc; subst he; subst hf
        obtain rfl : d = t := by injection h
        exact ⟨rest, hd, rfl⟩
      · exact absurd h (by simp)
  · rintro ⟨rest, ht, rfl⟩
    simp [markerBox?, ht]

theorem markerBox?_none_markerHere (l : List Char) (h : markerBox? l = none) :
    markerHere validBox l = false ∧ markerHere xBox l = false := by
  constructor
  · cases hv : markerHere validBox l
    · rfl
    · obtain ⟨t, rest, htv, rfl⟩ := (markerHere_iff _ _).mp hv
      have ht : t = ' ' ∨ t = 'x' := by
        rcases (by simpa [validBox] using htv : t = ' ' ∨ t = 'x') with h' | h'
        · exact Or.inl h'
        · exact Or.inr h'
      rw [(markerBox?_some_iff _ t).mpr ⟨rest, ht, rfl⟩] at h
      exact absurd h (by simp)
  · cases hv : markerHere xBox l
    · rfl
    · obtain ⟨t, rest, htv, rfl⟩ := (markerHere_iff _ _).mp hv
      have ht : t = 'x' := by simpa [xBox] using htv
      subst ht
      rw [(markerBox?_some_iff _ 'x').mpr ⟨rest, Or.inr rfl, rfl⟩] at h
      exact absurd h (by simp)

theorem scanTasks_marker (t : Char) (rest : List Char) (ht : t = ' ' ∨ t = 'x') :
    scanTasks 0 ('-' :: ' ' :: '[' :: t :: ']' :: ' ' :: rest) =
      t :: scanTasks 0 rest := by
  simp [scanTasks, markerBox?, ht]

/-- The findall scan returns one captured checkbox character per occurrence of
the exact markers "- [ ] " / "- [x] ", and the captured character is 'x'
exactly at the "- [x] " occurrences. -/
theorem scanTasks_counts :
    ∀ n, ∀ l : List Char, l.length ≤ n →
      (scanTasks 0 l).length = countMarkers l ∧
        (scanTasks 0 l).count 'x' = countMarkersX l := by
  intro n
  induction n with
  | zero =>
    intro l hl
    have hnil : l = [] := List.eq_nil_of_length_eq_zero (Nat.le_zero.mp hl)
    subst hnil
    simp [scanTasks, countMarkers, countMarkersX, markerCount]
  | succ n ih =>
    intro l hl
    cases l with
    | nil => simp [scanTasks, countMarkers, countMarkersX, markerCount]
    | cons c rest =>
      cases hm : markerBox? (c :: rest) with
      | some t =>
        obtain ⟨rest2, ht, heq⟩ := (markerBox?_some_iff _ _).mp hm
        rw [heq] at hl ⊢
        have hlen : rest2.length ≤ n := by
          simp at hl
          omega
        have hstep := scanTasks_marker t rest2 ht
        have hv : validBox t = true := by
          rcases ht with h | h <;> simp [validBox, h]
        obtain ⟨ihl, ihc⟩ := ih rest2 hlen
        constructor
        · rw [hstep, List.length_cons, countMarkers, markerCount_pattern, if_pos hv,
            ← countMarkers, ihl]
        · rw [hstep, List.count_cons, countMarkersX, markerCount_pattern, ← countMarkersX,
            ihc]
          rcases ht with h | h
          · subst h; simp [xBox]
          · subst h; simp [xBox]
      | none =>
        obtain ⟨hv, hx⟩ := markerBox?_none_markerHere _ hm
        have hstep : scanTasks 0 (c :: rest) = scanTasks 0 rest := by
          simp [scanTasks, hm]
        have hlen : rest.length ≤ n := by
          simp at hl
          omega
        obtain ⟨ihl, ihc⟩ := ih rest hlen
        constructor
        · rw [hstep, countMarkers, markerCount_cons_of_not _ _ _ hv, ← countMarkers, ihl]
        · rw [hstep, countMarkersX, markerCount_cons_of_not _ _ _ hx, ← countMarkersX, ihc]

theorem findall_tasks_counts (l : List Char) :
    (findall_tasks l).length = countMarkers l ∧
      (findall_tasks l).count 'x' = countMarkersX l :=
  scanTasks_counts l.length l (le_refl _)

/-! ## Title extraction

`parse_checklist` runs `re.search(r"^# (.+)", content, re.MULTILINE)`; with
MULTILINE the anchor `^` matches at the start of the content and right after
every newline, the engine tries the start positions from left to right, and
`(.+)` captures one or more non-newline characters (greedy: the rest of the
line).  The matched title is then stripped with Python's `str.strip()`. -/

/-- Not a newline (the characters `.` can match). -/
def notNl (c : Char) : Bool := !(c == '\n')

/-- Python ASCII whitespace as stripped by `str.strip()` and matched by
the regex class backslash-s. -/
def pyWsChar (c : Char) : Bool :=
  c == ' ' || c == '\t' || c == '\n' || c == '\r' || c == '\x0b' || c == '\x0c'

/-- Python `str.strip()`: drop whitespace from both ends. -/
def stripChars (l : List Char) : List Char :=
  ((l.dropWhile pyWsChar).reverse.dropWhile pyWsChar).reverse

/-- The segments of the content delimited by newlines: exactly the stretches
between the start positions accepted by the MULTILINE anchor. -/
def linesOf : List Char → List (List Char)
  | [] => [[]]
  | c :: rest =>
    if c = '\n' then [] :: linesOf rest
    else
      match linesOf rest with
      | l :: ls => (c :: l) :: ls
      | [] => [[c]]

/-- One attempt of the pattern "^# (.+)" at a given start position: the next
characters must be '#', ' ' and at least one further non-newline character;
the capture is the rest of the line. -/
def tryHeadingAt : List Char → Option (List Char)
  | a :: b :: d :: rest =>
      if a = '#' ∧ b = ' ' ∧ d ≠ '\n' then some ((d :: rest).takeWhile notNl) else none
  | _ => none

/-- The whole `re.search` scan: positions are tried left to right; a position
is eligible when it is the start of the content or preceded by a newline. -/
def reSearchTitle : Bool → List Char → Option (List Char)
  | _, [] => none
  | atStart, c :: rest =>
    match (if atStart then tryHeadingAt (c :: rest) else none) with
    | some h => some h
    | none => reSearchTitle (c == '\n') rest

/-- Reading of one line: it yields a heading exactly when it begins with '#'
followed by a space and has at least one further character. -/
def headingOf : List Char → Option (List Char)
  | a :: b :: rest => if a = '#' ∧ b = ' ' ∧ rest ≠ [] then some rest else none
  | _ => none

theorem headingOf_head_ne (a : Char) (l : List Char) (ha : ¬a = '#') :
    headingOf (a :: l) = none := by
  cases l with
  | nil => simp [headingOf]
  | cons b r => simp [headingOf, ha]

theorem headingOf_second_ne (a b : Char) (l : List Char) (hb : ¬b = ' ') :
    headingOf (a :: b :: l) = none := by
  simp [headingOf, hb]

theorem notNl_hash : notNl '#' = true := by decide

theorem notNl_space : notNl ' ' = true := by decide

theorem takeWhile_cons_notNl (c : Char) (l : List Char) (hc : notNl c = true) :
    (c :: l).takeWhile notNl = c :: l.takeWhile notNl := by
  simp [List.takeWhile, hc]

theorem takeWhile_cons_nl (l : List Char) :
    ('\n' :: l).takeWhile notNl = [] := by
  simp [List.takeWhile, notNl]

/-- Trying the regex at a position reads exactly the line starting there. -/
theorem tryHeadingAt_eq_headingOf :
    ∀ l : List Char, tryHeadingAt l = headingOf (l.takeWhile notNl) := by
  intro l
  match l with
  | [] => rfl
  | [a] =>
    cases ha : notNl a <;> simp [tryHeadingAt, List.takeWhile, ha, headingOf]
  | [a, b] =>
    cases ha : notNl a <;> cases hb : notNl b <;>
      simp [tryHeadingAt, List.takeWhile, ha, hb, headingOf]
  | a :: b :: d :: rest =>
    by_cases ha : a = '#'
    · subst ha
      by_cases hb : b = ' '
      · subst hb
        by_cases hd : d = '\n'
        · subst hd
          have h1 : tryHeadingAt ('#' :: ' ' :: '\n' :: rest) = none := by
            simp [tryHeadingAt]
          rw [h1, takeWhile_cons_notNl '#' _ notNl_hash,
            takeWhile_cons_notNl ' ' _ notNl_space, takeWhile_cons_nl]
          simp [headingOf]
        · have hd' : notNl d = true := by simp [notNl, hd]
          have h1 : tryHeadingAt ('#' :: ' ' :: d :: rest) =
              some ((d :: rest).takeWhile notNl) := by
            simp [tryHeadingAt, hd]
          rw [h1, takeWhile_cons_notNl '#' _ notNl_hash,
            takeWhile_cons_notNl ' ' _ notNl_space, takeWhile_cons_notNl d _ hd']
          simp [headingOf]
      · have h1 : tryHeadingAt ('#' :: b :: d :: rest) = none := by
          simp [tryHeadingAt, hb]
        rw [h1]
        cases hb' : notNl b with
        | false =>
          have hbn : b = '\n' := by
            by_contra hno
            simp [notNl, hno] at hb'
          subst hbn
          rw [takeWhile_cons_notNl '#' _ notNl_hash, takeWhile_cons_nl]
          simp [headingOf]
        | true =>
          rw [takeWhile_cons_notNl '#' _ notNl_hash, takeWhile_cons_notNl b _ hb',
            headingOf_second_ne _ _ _ hb]
    · have h1 : tryHeadingAt (a :: b :: d :: rest) = none := by
        simp [tryHeadingAt, ha]
      rw [h1]
      cases ha' : notNl a with
      | false =>
        have han : a = '\n' := by
          by_contra hno
          simp [notNl, hno] at ha'
        subst han
        rw [takeWhile_cons_nl]
        simp [headingOf]
      | true =>
        rw [takeWhile_cons_notNl a _ ha', headingOf_head_ne a _ ha]

/-- The first line of the content is its longest newline-free prefix. -/
theorem linesOf_head :
    ∀ l : List Char, ∃ ls, linesOf l = l.takeWhile notNl :: ls := by
  intro l
  induction l with
  | nil => exact ⟨[], rfl⟩
  | cons c rest ih =>
    by_cases hc : c = '\n'
    · subst hc
      exact ⟨linesOf rest, by simp [linesOf, List.takeWhile, notNl]⟩
    · obtain ⟨ls, hls⟩ := ih
      have hnl : notNl c = true := by simp [notNl, hc]
      exact ⟨ls, by simp [linesOf, hc, hls, List.takeWhile, hnl]⟩

theorem linesOf_tail_cons (c : Char) (rest : List Char) (hc : ¬c = '\n') :
    (linesOf (c :: rest)).tail = (linesOf rest).tail := by
  obtain ⟨ls, hls⟩ := linesOf_head rest
  simp [linesOf, hc, hls]

/-- The left-to-right MULTILINE scan finds the heading of the first line that
has one, in line order. -/
theorem reSearchTitle_eq_lines :
    ∀ l : List Char,
      reSearchTitle true l = (linesOf l).findSome? headingOf ∧
        reSearchTitle false l = ((linesOf l).tail).findSome? headingOf := by
  intro l
  induction l with
  | nil => constructor <;> simp [reSearchTitle, linesOf, headingOf]
  | cons c rest ih =>
    obtain ⟨ih1, ih2⟩ := ih
    have hfalse :
        reSearchTitle false (c :: rest) =
          ((linesOf (c :: rest)).tail).findSome? headingOf := by
      by_cases hc : c = '\n'
      · subst hc
        simp [reSearchTitle, linesOf, ih1]
      · have hb : (c == '\n') = false := by simp [hc]
        simp [reSearchTitle, hb, linesOf_tail_cons c rest hc, ih2]
    refine ⟨?_, hfalse⟩
    obtain ⟨ls, hls⟩ := linesOf_head (c :: rest)
    have htail : ls = (linesOf (c :: rest)).tail := by rw [hls]; rfl
    have hhead : headingOf ((c :: rest).takeWhile notNl) = tryHeadingAt (c :: rest) :=
      (tryHeadingAt_eq_headingOf _).symm
    cases htry : tryHeadingAt (c :: rest) with
    | some h =>
      rw [hls, List.findSome?_cons, hhead, htry]
      simp [reSearchTitle, htry]
    | none =>
      rw [hls, List.findSome?_cons, hhead, htry]
      rw [htail]
      by_cases hc : c = '\n'
      · subst hc
        have : (linesOf ('\n' :: rest)).tail = linesOf rest := by simp [linesOf]
        rw [this]
        simp [reSearchTitle, htry, ih1]
      · have hb : (c == '\n') = false := by simp [hc]
        rw [linesOf_tail_cons c rest hc]
        simp [reSearchTitle, htry, hb, ih2]

/-! ## The parser -/

/-- The record produced per parsed file. -/
structure ChecklistResult where
  done : Nat
  total : Nat
  title : List Char
deriving DecidableEq, Repr

/-- Model of `parse_checklist` of `md_dashboard/dashboard.py` (duplicated in
`mdtick.py`): counts from the findall scan, title from the first H1 match,
fallback to the file stem. -/
def parse_checklist (content : List Char) (stem : List Char) : ChecklistResult :=
  { done := (findall_tasks content).count 'x'
    total := (findall_tasks content).length
    title :=
      match reSearchTitle true content with
      | some h => stripChars h
      | none => stem }

/-- C1: for every file content, the parser's total equals the number of
occurrences of the exact markers "- [ ] " or "- [x] " (uppercase "- [X] "
is not counted), and done equals the number of "- [x] " occurrences. -/
theorem c1_counts_are_marker_occurrences (content stem : List Char) :
    (parse_checklist content stem).total = countMarkers content ∧
      (parse_checklist content stem).done = countMarkersX content :=
  ⟨(findall_tasks_counts content).1, (findall_tasks_counts content).2⟩

/-- C2: for every file content, done ≤ total, and both counts are
non-negative integers. -/
theorem c2_done_le_total (content stem : List Char) :
    (parse_checklist content stem).done ≤ (parse_checklist content stem).total ∧
      (0 : ℤ) ≤ (parse_checklist content stem).done ∧
        (0 : ℤ) ≤ (parse_checklist content stem).total :=
  ⟨List.count_le_length 'x' (findall_tasks content), by positivity, by positivity⟩

/-! ## C5: title rule -/

/-- Model of `pathlib.Path.name`: the final path component. -/
def nameOf (p : List Char) : List Char := (p.splitOn '/').getLastD []

/-- Model of `pathlib.Path.stem`: the final component without its last extension
(a leading dot alone does not start an extension). -/
def stemOf (p : List Char) : List Char :=
  let n := nameOf p
  match n.reverse.dropWhile (fun c => !(c == '.')) with
  | '.' :: restRev => if restRev = [] then n else restRev.reverse
  | _ => n

/-- Reading of one line following the claim's words: any line beginning with a
single '#' followed by a space supplies its (possibly empty) heading text. -/
def headingOfClaim : List Char → Option (List Char)
  | a :: b :: rest => if a = '#' ∧ b = ' ' then some rest else none
  | _ => none

/-- The claim's title rule, read literally: heading text of the first line
beginning with '#' and a space, trimmed; otherwise the stem. -/
def claim_title (content stem : List Char) : List Char :=
  match (linesOf content).findSome? headingOfClaim with
  | some h => stripChars h
  | none => stem

/-- The amended title rule: the qualifying line must also have at least one
character after the space, because the regex group "(.+)" cannot be empty. -/
def amended_title (content stem : List Char) : List Char :=
  match (linesOf content).findSome? headingOf with
  | some h => stripChars h
  | none => stem

/-- C5 as stated fails: on the content "# \nx" (a heading line consisting of
'#' and a space only), the claim's rule yields the empty title while the
parser falls back to the stem "plan". -/
theorem c5_counterexample :
    claim_title ("# \nx".toList) ("plan".toList) = "".toList ∧
      (parse_checklist ("# \nx".toList) ("plan".toList)).title = "plan".toList ∧
      (parse_checklist ("# \nx".toList) ("plan".toList)).title ≠
        claim_title ("# \nx".toList) ("plan".toList) := by
  refine ⟨by decide, by decide, by decide⟩

/-- C5 amended: the title is the trimmed heading text of the first line
beginning with '#' followed by a space and at least one further character;
if no such line exists, the title is the stem (base name without extension,
e.g. "plan.md" gives "plan"). -/
theorem c5_title_amended :
    (∀ content stem : List Char,
        (parse_checklist content stem).title = amended_title content stem) ∧
      stemOf ("plan.md".toList) = "plan".toList := by
  constructor
  · intro content stem
    show (match reSearchTitle true content with
          | some h => stripChars h
          | none => stem) = amended_title content stem
    rw [(reSearchTitle_eq_lines content).1]
    rfl
  · decide

/-! ## Percent and progress bar

The Python sources compute `percent = (done / total) * 100 if total else 0`
with float division and `bar_len = int(percent // 5)`; the arithmetic is
modelled exactly over ℚ. -/

/-- Python `(done / total) * 100 if total else 0`. -/
def percent (done total : Nat) : ℚ :=
  if total ≠ 0 then ((done : ℚ) / (total : ℚ)) * 100 else 0

/-- Python `int(percent // 5)`: floor division by 5. -/
def bar_len (done total : Nat) : ℤ := Int.floor (percent done total / 5)

/-- The bar string `"█" * bar_len + "-" * (20 - bar_len)`; Python repetition
with a negative count yields the empty string, hence the `toNat` clamps. -/
def barChars (done total : Nat) : List Char :=
  List.replicate (bar_len done total).toNat '█' ++
    List.replicate (20 - bar_len done total).toNat '-'

theorem percent_nonneg (d t : Nat) : 0 ≤ percent d t := by
  unfold percent
  split
  · positivity
  · norm_num

theorem percent_le_100 (d t : Nat) (h : d ≤ t) : percent d t ≤ 100 := by
  unfold percent
  split
  · rename_i ht
    have ht' : (0 : ℚ) < t := by
      have := Nat.pos_of_ne_zero ht
      exact_mod_cast this
    rw [div_mul_eq_mul_div, div_le_iff₀ ht']
    have hd : (d : ℚ) ≤ t := by exact_mod_cast h
    nlinarith
  · norm_num

theorem bar_len_nonneg (d t : Nat) : 0 ≤ bar_len d t :=
  Int.floor_nonneg.mpr (div_nonneg (percent_nonneg d t) (by norm_num))

theorem bar_len_le_20 (d t : Nat) (h : d ≤ t) : bar_len d t ≤ 20 := by
  have h1 : percent d t / 5 ≤ 20 := by
    rw [div_le_iff₀ (by norm_num : (0 : ℚ) < 5)]
    have := percent_le_100 d t h
    linarith
  calc bar_len d t ≤ ⌊(20 : ℚ)⌋ := Int.floor_le_floor h1
  _ = 20 := by norm_num

/-- C3: the percent computed by the renderers equals 100 * done / total when
total > 0, and is exactly 0 when total = 0 (the division is guarded, so no
division error can occur). -/
theorem c3_percent_formula (done total : Nat) :
    (0 < total → percent done total = 100 * (done : ℚ) / (total : ℚ)) ∧
      (total = 0 → percent done total = 0) := by
  constructor
  · intro h
    have h0 : total ≠ 0 := Nat.pos_iff_ne_zero.mp h
    simp only [percent, if_pos h0]
    ring
  · intro h
    simp [percent, h]

theorem c3_percent_formula_witness :
    percent 1 2 = 100 * ((1 : Nat) : ℚ) / ((2 : Nat) : ℚ) ∧ percent 3 0 = 0 :=
  ⟨(c3_percent_formula 1 2).1 (by norm_num), (c3_percent_formula 3 0).2 rfl⟩

/-- C4: for every row data with done ≤ total (as every parsed file satisfies),
the bar's filled segment count is floor(percent / 5) and filled plus dash
segments always sum to 20. -/
theorem c4_bar_segments (done total : Nat) (h : done ≤ total) :
    (((barChars done total).count '█' : ℤ) =
        Int.floor (percent done total / 5)) ∧
      (barChars done total).count '█' + (barChars done total).count '-' = 20 := by
  have h0 : 0 ≤ bar_len done total := bar_len_nonneg done total
  have h20 : bar_len done total ≤ 20 := bar_len_le_20 done total h
  have hfill : (barChars done total).count '█' = (bar_len done total).toNat := by
    simp [barChars, List.count_append, List.count_replicate_self,
      List.count_replicate]
  have hdash : (barChars done total).count '-' = (20 - bar_len done total).toNat := by
    simp [barChars, List.count_append, List.count_replicate_self,
      List.count_replicate]
  constructor
  · rw [hfill, Int.toNat_of_nonneg h0]
    rfl
  · rw [hfill, hdash]
    omega

theorem c4_bar_segments_witness :
    (((barChars 1 2).count '█' : ℤ) = Int.floor (percent 1 2 / 5)) ∧
      (barChars 1 2).count '█' + (barChars 1 2).count '-' = 20 :=
  c4_bar_segments 1 2 (by norm_num)

/-! ## Renderers

The file system is modelled as a partial map from paths to file contents;
`none` stands for a path for which `Path.exists()` is false. -/

/-- One row of the table (or HTML table): either the placeholder row with
dashes added for a missing file, or a real data row. -/
inductive TableRow where
  | placeholder (name : List Char)
  | entry (title : List Char) (done total : Nat) (bar : List Char) (pct : ℚ)
deriving DecidableEq, Repr

/-- The data row `create_table_dashboard` builds for an existing file
(title, done, total, bar string, percent). -/
def table_row_of (content path : List Char) : TableRow :=
  TableRow.entry (parse_checklist content (stemOf path)).title
    (parse_checklist content (stemOf path)).done
    (parse_checklist content (stemOf path)).total
    (barChars (parse_checklist content (stemOf path)).done
      (parse_checklist content (stemOf path)).total)
    (percent (parse_checklist content (stemOf path)).done
      (parse_checklist content (stemOf path)).total)

/-- The row `create_html_dashboard` builds for an existing file; the source
duplicates the table computation verbatim. -/
def html_row_of (content path : List Char) : TableRow :=
  TableRow.entry (parse_checklist content (stemOf path)).title
    (parse_checklist content (stemOf path)).done
    (parse_checklist content (stemOf path)).total
    (barChars (parse_checklist content (stemOf path)).done
      (parse_checklist content (stemOf path)).total)
    (percent (parse_checklist content (stemOf path)).done
      (parse_checklist content (stemOf path)).total)

/-- The loop of `create_table_dashboard`: a placeholder row for a missing
path, a data row otherwise; no path aborts the batch. -/
def create_table_rows (fs : List Char → Option (List Char)) :
    List (List Char) → List TableRow
  | [] => []
  | p :: ps =>
    match fs p with
    | none => TableRow.placeholder (nameOf p) :: create_table_rows fs ps
    | some content => table_row_of content p :: create_table_rows fs ps

/-- The loop of `create_html_dashboard` that builds `rows_html`. -/
def create_html_rows (fs : List Char → Option (List Char)) :
    List (List Char) → List TableRow
  | [] => []
  | p :: ps =>
    match fs p with
    | none => TableRow.placeholder (nameOf p) :: create_html_rows fs ps
    | some content => html_row_of content p :: create_html_rows fs ps

/-- Console output of the animated dashboard loop: a warning for a missing
file, a progress-bar task otherwise. -/
inductive AnimEvent where
  | warning (path : List Char)
  | bar (title : List Char) (done total : Nat)
deriving DecidableEq, Repr

/-- The task `create_animated_dashboard` adds for an existing file. -/
def anim_event_of (content path : List Char) : AnimEvent :=
  AnimEvent.bar (parse_checklist content (stemOf path)).title
    (parse_checklist content (stemOf path)).done
    (parse_checklist content (stemOf path)).total

/-- The loop of `create_animated_dashboard`. -/
def create_animated_events (fs : List Char → Option (List Char)) :
    List (List Char) → List AnimEvent
  | [] => []
  | p :: ps =>
    match fs p with
    | none => AnimEvent.warning p :: create_animated_events fs ps
    | some content => anim_event_of content p :: create_animated_events fs ps

/-- C6: every renderer processes the configured paths in listed order; a
missing path yields exactly one warning (animated) or placeholder row
(table/HTML) at its position without aborting the batch, and every existing
path yields its real row at its original position. -/
theorem c6_rows_in_order (fs : List Char → Option (List Char))
    (paths : List (List Char)) :
    (create_table_rows fs paths).length = paths.length ∧
      (create_html_rows fs paths).length = paths.length ∧
      (create_animated_events fs paths).length = paths.length ∧
      ∀ (i : Nat) (p : List Char), paths[i]? = some p →
        (fs p = none →
          (create_table_rows fs paths)[i]? =
              some (TableRow.placeholder (nameOf p)) ∧
            (create_html_rows fs paths)[i]? =
              some (TableRow.placeholder (nameOf p)) ∧
            (create_animated_events fs paths)[i]? = some (AnimEvent.warning p)) ∧
        (∀ content, fs p = some content →
          (create_table_rows fs paths)[i]? = some (table_row_of content p) ∧
            (create_html_rows fs paths)[i]? = some (html_row_of content p) ∧
            (create_animated_events fs paths)[i]? =
              some (anim_event_of content p)) := by
  induction paths with
  | nil =>
    refine ⟨rfl, rfl, rfl, ?_⟩
    intro i p hip
    simp at hip
  | cons q ps ih =>
    obtain ⟨ih1, ih2, ih3, ih4⟩ := ih
    cases hq : fs q with
    | none =>
      refine ⟨?_, ?_, ?_, ?_⟩
      · simp [create_table_rows, hq, ih1]
      · simp [create_html_rows, hq, ih2]
      · simp [create_animated_events, hq, ih3]
      · intro i p hip
        cases i with
        | zero =>
          simp at hip
          subst hip
          constructor
          · intro hmiss
            simp [create_table_rows, create_html_rows, create_animated_events, hq]
          · intro content hsome
            rw [hq] at hsome
            exact absurd hsome (by simp)
        | succ j =>
          simp only [List.getElem?_cons_succ] at hip
          have h := ih4 j p hip
          simp only [create_table_rows, create_html_rows, create_animated_events,
            hq, List.getElem?_cons_succ]
          exact h
    | some qc =>
      refine ⟨?_, ?_, ?_, ?_⟩
      · simp [create_table_rows, hq, ih1]
      · simp [create_html_rows, hq, ih2]
      · simp [create_animated_events, hq, ih3]
      · intro i p hip
        cases i with
        | zero =>
          simp at hip
          subst hip
          constructor
          · intro hmiss
            rw [hq] at hmiss
            exact absurd hmiss (by simp)
          · intro content hsome
            rw [hq] at hsome
            obtain rfl : qc = content := by injection hsome
            simp [create_table_rows, create_html_rows, create_animated_events, hq]
        | succ j =>
          simp only [List.getElem?_cons_succ] at hip
          have h := ih4 j p hip
          simp only [create_table_rows, create_html_rows, create_animated_events,
            hq, List.getElem?_cons_succ]
          exact h

/-- A concrete file system with one real checklist file. -/
def demoFs : List Char → Option (List Char) :=
  fun p => if p = "a.md".toList then some ("- [x] t\n- [ ] u\n".toList) else none

theorem c6_rows_in_order_witness :
    (create_table_rows demoFs ["missing.md".toList, "a.md".toList])[0]? =
        some (TableRow.placeholder ("missing.md".toList)) ∧
      (create_table_rows demoFs ["missing.md".toList, "a.md".toList])[1]? =
        some (table_row_of ("- [x] t\n- [ ] u\n".toList) ("a.md".toList)) ∧
      (create_animated_events demoFs ["missing.md".toList, "a.md".toList])[0]? =
        some (AnimEvent.warning ("missing.md".toList)) := by
  have h := c6_rows_in_order demoFs ["missing.md".toList, "a.md".toList]
  have h0 := (h.2.2.2 0 ("missing.md".toList) (by decide)).1 (by decide)
  have h1 := ((h.2.2.2 1 ("a.md".toList) (by decide)).2
    ("- [x] t\n- [ ] u\n".toList) (by decide)).1
  exact ⟨h0.1, h1, h0.2.2⟩

/-! ## Dashboard controller and CLI exit status

`create_dashboard` in `md_dashboard/dashboard.py` prints diagnostics on the
console and returns; `cli.py`'s `main` then returns normally, so the Python
process exits 0.  Only an uncaught exception (e.g. `FileNotFoundError` from
`Path.read_text` on a missing template) makes the interpreter print a
traceback and exit 1. -/

/-- Console diagnostics printed by the controller. -/
inductive Message where
  | configNotFound (cfg : List Char)
  | noMarkdownFiles
  | mustProvideAssets
  | htmlCreated (out : List Char)
deriving DecidableEq, Repr

/-- The non-blank lines of the config file, stripped, in file order. -/
def nonBlankLines (content : List Char) : List (List Char) :=
  ((linesOf content).map stripChars).filter (fun l => !l.isEmpty)

/-- Model of `load_markdown_paths`: a missing config prints a diagnostic and yields
the empty path list; otherwise the stripped non-blank lines are the paths. -/
def load_markdown_paths (fs : List Char → Option (List Char))
    (config : List Char) : List Message × List (List Char) :=
  match fs config with
  | none => ([Message.configNotFound config], [])
  | some content => ([], nonBlankLines content)

/-- The data `create_html_dashboard` writes into the output file: template
text, style text and the table rows (the textual `{{ CSS }}` /
`{{ TABLE_ROWS }}` substitution itself carries no claim content and is kept
as this record). -/
structure HtmlRender where
  template : List Char
  css : List Char
  rows : List TableRow
deriving DecidableEq, Repr

/-- Model of `create_html_dashboard`: the rows are built first, then the template and
the style file are read (an absent file raises, modelled as `Except.error`
with the offending path), and only after both reads succeed is the output
file opened and written. -/
def create_html_dashboard (fs : List Char → Option (List Char))
    (paths : List (List Char)) (template css out : List Char) :
    Except (List Char) (List Char × HtmlRender) :=
  let rows := create_html_rows fs paths
  match fs template with
  | none => Except.error template
  | some t =>
    match fs css with
    | none => Except.error css
    | some c => Except.ok (out, ⟨t, c, rows⟩)

/-- What a console renderer displayed. -/
inductive Render where
  | table (rows : List TableRow)
  | animated (events : List AnimEvent)
deriving DecidableEq, Repr

/-- Observable outcome of one `create_dashboard` call: diagnostics printed,
console render, file written, and the uncaught exception if any. -/
structure DashOutcome where
  messages : List Message
  render : Option Render
  written : Option (List Char × HtmlRender)
  exc : Option (List Char)
deriving DecidableEq, Repr

/-- Model of `create_dashboard` of `md_dashboard/dashboard.py`. -/
def create_dashboard (fs : List Char → Option (List Char))
    (config view : List Char)
    (htmlOutput templateFile cssFile : Option (List Char)) : DashOutcome :=
  match load_markdown_paths fs config with
  | (msgs, paths) =>
    if paths.isEmpty then
      { messages := msgs ++ [Message.noMarkdownFiles], render := none,
        written := none, exc := none }
    else
      match htmlOutput with
      | some out =>
        match templateFile, cssFile with
        | some t, some c =>
          (match create_html_dashboard fs paths t c out with
           | Except.error e =>
             { messages := msgs, render := none, written := none, exc := some e }
           | Except.ok w =>
             { messages := msgs ++ [Message.htmlCreated out], render := none,
               written := some w, exc := none })
        | _, _ =>
          { messages := msgs ++ [Message.mustProvideAssets], render := none,
            written := none, exc := none }
      | none =>
        if view = "table".toList then
          { messages := msgs, render := some (Render.table (create_table_rows fs paths)),
            written := none, exc := none }
        else
          { messages := msgs,
            render := some (Render.animated (create_animated_events fs paths)),
            written := none, exc := none }

/-- Exit status of `cli.py`'s `main`: 0 when `create_dashboard` returns,
1 when an exception escapes (Python prints the traceback and exits 1). -/
def cli_exit_code (o : DashOutcome) : Nat := if o.exc.isSome then 1 else 0

/-- C7 as stated fails: with a missing config file the run does print a
diagnostic, but `create_dashboard` merely returns, so the process exit
status is 0 and not non-zero. -/
theorem c7_counterexample :
    Message.configNotFound ("mdfiles.txt".toList) ∈
        (create_dashboard (fun _ => none) ("mdfiles.txt".toList) ("table".toList)
          none none none).messages ∧
      cli_exit_code (create_dashboard (fun _ => none) ("mdfiles.txt".toList)
        ("table".toList) none none none) = 0 := by
  decide

/-- C7 amended: if the config file does not exist, or exists with zero
non-blank lines, the run prints a clear diagnostic and performs no rendering
or writing, but the process still exits with status 0, the same as on
success. -/
theorem c7_amended (fs : List Char → Option (List Char))
    (config view : List Char) (ho tf cf : Option (List Char)) :
    (fs config = none →
        (create_dashboard fs config view ho tf cf).messages =
            [Message.configNotFound config, Message.noMarkdownFiles] ∧
          (create_dashboard fs config view ho tf cf).render = none ∧
          (create_dashboard fs config view ho tf cf).written = none ∧
          cli_exit_code (create_dashboard fs config view ho tf cf) = 0) ∧
      (∀ content, fs config = some content → nonBlankLines content = [] →
        (create_dashboard fs config view ho tf cf).messages =
            [Message.noMarkdownFiles] ∧
          (create_dashboard fs config view ho tf cf).render = none ∧
          (create_dashboard fs config view ho tf cf).written = none ∧
          cli_exit_code (create_dashboard fs config view ho tf cf) = 0) := by
  constructor
  · intro h
    simp [create_dashboard, load_markdown_paths, h, cli_exit_code]
  · intro content h hempty
    simp [create_dashboard, load_markdown_paths, h, hempty, cli_exit_code]

theorem c7_amended_witness :
    (create_dashboard (fun _ => none) ("cfg".toList) ("table".toList)
          none none none).messages =
        [Message.configNotFound ("cfg".toList), Message.noMarkdownFiles] ∧
      cli_exit_code (create_dashboard (fun _ => none) ("cfg".toList)
        ("table".toList) none none none) = 0 := by
  have h := (c7_amended (fun _ => none) ("cfg".toList) ("table".toList)
    none none none).1 rfl
  exact ⟨h.1, h.2.2.2⟩

/-- C9: when HTML export is requested and the template or the style file is
absent, the export fails with an uncaught error reported by the interpreter,
the process exits 1, and nothing is written to the output file (both assets
are read before the output file is opened). -/
theorem c9_html_assets_missing (fs : List Char → Option (List Char))
    (config content view out t c : List Char)
    (hconf : fs config = some content) (hne : nonBlankLines content ≠ [])
    (hmiss : fs t = none ∨ fs c = none) :
    (create_dashboard fs config view (some out) (some t) (some c)).written =
        none ∧
      (create_dashboard fs config view (some out) (some t)
          (some c)).exc.isSome = true ∧
      cli_exit_code
          (create_dashboard fs config view (some out) (some t) (some c)) = 1 ∧
      (create_dashboard fs config view (some out) (some t) (some c)).render =
        none := by
  have hempty : (nonBlankLines content).isEmpty = false := by
    cases h : nonBlankLines content
    · exact absurd h hne
    · rfl
  rcases hmiss with hm | hm
  · simp [create_dashboard, load_markdown_paths, hconf, hempty,
      create_html_dashboard, hm, cli_exit_code]
  · cases ht : fs t with
    | none =>
      simp [create_dashboard, load_markdown_paths, hconf, hempty,
        create_html_dashboard, ht, cli_exit_code]
    | some tc =>
      simp [create_dashboard, load_markdown_paths, hconf, hempty,
        create_html_dashboard, ht, hm, cli_exit_code]

/-- A file system holding only a config file that lists one path. -/
def cfgOnlyFs : List Char → Option (List Char) :=
  fun p => if p = "cfg".toList then some ("a.md\n".toList) else none

theorem c9_html_assets_missing_witness :
    (create_dashboard cfgOnlyFs ("cfg".toList) ("table".toList)
          (some ("out.html".toList)) (some ("tpl.html".toList))
          (some ("style.css".toList))).written = none ∧
      cli_exit_code (create_dashboard cfgOnlyFs ("cfg".toList) ("table".toList)
        (some ("out.html".toList)) (some ("tpl.html".toList))
        (some ("style.css".toList))) = 1 := by
  have h := c9_html_assets_missing cfgOnlyFs ("cfg".toList) ("a.md\n".toList)
    ("table".toList) ("out.html".toList) ("tpl.html".toList)
    ("style.css".toList) (by decide) (by decide) (Or.inl (by decide))
  exact ⟨h.1, h.2.2.1⟩

/-! ## Scanner (`scan.py`)

`file_contains_tasklist` compiles `^(\s*[\-\*\+]\s*\[[xX ]\])` (no MULTILINE)
and runs `pattern.search(line)` on each line of the file, returning at the
first hit.  With the `^` anchor a line matches exactly when, after a run of
whitespace, its first other character is one of '-', '*', '+', followed
(after another whitespace run) by '[', one of 'x'/'X'/' ', and ']'. -/

/-- The per-line test of the scanner's pattern. -/
def tasklist_line (l : List Char) : Bool :=
  match l.dropWhile pyWsChar with
  | b :: rest =>
    if b = '-' ∨ b = '*' ∨ b = '+' then
      match rest.dropWhile pyWsChar with
      | '[' :: c :: ']' :: _ => decide (c = 'x' ∨ c = 'X' ∨ c = ' ')
      | _ => false
    else false
  | [] => false

/-- The scanner's per-file loop: return at the first matching line. -/
def tasklist_scan : List (List Char) → Bool
  | [] => false
  | l :: ls => if tasklist_line l then true else tasklist_scan ls

/-- Model of `file_contains_tasklist` applied to a file's content. -/
def file_contains_tasklist (content : List Char) : Bool :=
  tasklist_scan (linesOf content)

theorem tasklist_scan_iff (ls : List (List Char)) :
    tasklist_scan ls = true ↔ ∃ l, l ∈ ls ∧ tasklist_line l = true := by
  induction ls with
  | nil => simp [tasklist_scan]
  | cons l ls ih =>
    cases h : tasklist_line l <;> simp [tasklist_scan, h, ih]

/-- One file met by the scanner's directory walk. -/
structure ScanFile where
  filename : List Char
  path : List Char
  content : List Char
deriving DecidableEq, Repr

/-- Python `filename.lower().endswith(".md")`. -/
def endsWithMdLower (n : List Char) : Bool :=
  ".md".toList.isSuffixOf (n.map Char.toLower)

/-- Model of `find_markdown_files`: keep the walked files whose name ends in ".md"
case-insensitively, in walk order. -/
def find_markdown_files (files : List ScanFile) : List ScanFile :=
  files.filter (fun f => endsWithMdLower f.filename)

/-- The paths `scan.py`'s `main` writes to the output file, one per line:
the markdown files that contain a task list, in walk order. -/
def scan_output (files : List ScanFile) : List (List Char) :=
  ((find_markdown_files files).filter
    (fun f => file_contains_tasklist f.content)).map ScanFile.path

/-- The walk of a directory holding `a.md` (with the line "- [ ] x") and
`b.md` (no checklist line). -/
def demoScanFiles : List ScanFile :=
  [⟨"a.md".toList, "/dir/a.md".toList, "- [ ] x\n".toList⟩,
   ⟨"b.md".toList, "/dir/b.md".toList, "no checklist here\n".toList⟩]

/-- C8: the scanner's output holds exactly the paths of walked files whose
name ends in ".md" case-insensitively and which have at least one line
matching the pattern; the per-file loop short-circuits at the first matching
line; over a directory with `a.md` (containing "- [ ] x") and `b.md` (no
checklist) only `a.md`'s path is written. -/
theorem c8_scan_output (files : List ScanFile) (p : List Char) :
    (p ∈ scan_output files ↔
        ∃ f, f ∈ files ∧ endsWithMdLower f.filename = true ∧
          (∃ l, l ∈ linesOf f.content ∧ tasklist_line l = true) ∧ f.path = p) ∧
      (∀ (l : List Char) (ls : List (List Char)), tasklist_line l = true →
        tasklist_scan (l :: ls) = true) ∧
      scan_output demoScanFiles = ["/dir/a.md".toList] := by
  refine ⟨?_, ?_, by decide⟩
  · rw [scan_output, find_markdown_files]
    simp only [List.mem_map, List.mem_filter]
    constructor
    · rintro ⟨f, ⟨⟨hf, hmd⟩, hcontains⟩, hp⟩
      exact ⟨f, hf, hmd,
        (tasklist_scan_iff _).mp (by simpa [file_contains_tasklist] using hcontains),
        hp⟩
    · rintro ⟨f, hf, hmd, hline, hp⟩
      exact ⟨f, ⟨⟨hf, hmd⟩,
        by simpa [file_contains_tasklist] using (tasklist_scan_iff _).mpr hline⟩, hp⟩
  · intro l ls h
    simp [tasklist_scan, h]

theorem c8_scan_output_witness :
    tasklist_scan ["- [ ] x".toList] = true :=
  (c8_scan_output demoScanFiles ("/dir/a.md".toList)).2.1
    ("- [ ] x".toList) [] (by decide)

/-- C10: the scanner's detection is strictly weaker than the parser's
counting rule: the single line "* [x] task" is detected by
`file_contains_tasklist` while `parse_checklist` counts no task at all, so a
scanner-produced config can yield a dashboard row with done = 0, total = 0. -/
theorem c10_scanner_weaker_than_counting :
    file_contains_tasklist ("* [x] task".toList) = true ∧
      (parse_checklist ("* [x] task".toList) ("p".toList)).total = 0 ∧
      (parse_checklist ("* [x] task".toList) ("p".toList)).done = 0 ∧
      table_row_of ("* [x] task".toList) ("p.md".toList) =
        TableRow.entry ("p".toList) 0 0 (List.replicate 20 '-') 0 := by
  refine ⟨by decide, by decide, by decide, ?_⟩
  have hd : (parse_checklist ("* [x] task".toList) (stemOf ("p.md".toList))).done = 0 := by
    decide
  have ht : (parse_checklist ("* [x] task".toList) (stemOf ("p.md".toList))).total = 0 := by
    decide
  have htitle :
      (parse_checklist ("* [x] task".toList) (stemOf ("p.md".toList))).title =
        "p".toList := by decide
  have hp : percent 0 0 = 0 := by simp [percent]
  have hb : bar_len 0 0 = 0 := by
    rw [bar_len, hp]
    norm_num
  have hbar : barChars 0 0 = List.replicate 20 '-' := by
    rw [barChars, hb]
    decide
  simp only [table_row_of, hd, ht, htitle, hp, hbar]

end Mdtick
